import Mathlib

/-!
Verification of the two data-preparation scripts in this repository
(`scripts/audit_and_clean_exercises_csv.py` and
`scripts/convert_functional_fitness_xlsx.py`) against their
natural-language specification.  The Python functions are shallowly
embedded as executable Lean definitions; source values coming out of the
tabular reader are modelled by the inductive type `Value` below, and the
small fragment of Python's `json.loads` that the scripts exercise is
embedded as a fuel-indexed recursive-descent routine `json_loads`.
Floating-point repr subtleties (Python `str` of parsed floats) are out of
scope; JSON number tokens keep their source lexeme.
-/

namespace FitnessApp

/-- Python whitespace characters used by `str.strip()` (ASCII subset). -/
def pyIsWs (c : Char) : Bool :=
  c == ' ' || c == '\t' || c == '\n' || c == '\x0d' || c == '\x0b' || c == '\x0c'

/-- Remove leading characters satisfying `p` (Python `str.lstrip`). -/
def stripLeftP (p : Char → Bool) (l : List Char) : List Char :=
  l.dropWhile p

/-- Remove trailing characters satisfying `p` (Python `str.rstrip`). -/
def stripRightP (p : Char → Bool) (l : List Char) : List Char :=
  (l.reverse.dropWhile p).reverse

/-- Python `str.strip(chars)` over a character predicate. -/
def pyStripP (p : Char → Bool) (l : List Char) : List Char :=
  stripRightP p (stripLeftP p l)

/-- Python `str.strip()` (whitespace on both ends). -/
def pyStrip (s : String) : String :=
  ⟨pyStripP pyIsWs s.data⟩

/-- ASCII lower-casing of one character; models Python `str.casefold` /
`str.lower` on the ASCII texts handled by the scripts. -/
def asciiLower (c : Char) : Char :=
  if 'A' ≤ c && c ≤ 'Z' then Char.ofNat (c.toNat + 32) else c

/-- Python `str.casefold()` (ASCII approximation; the keyword tables the
scripts match against are all ASCII). -/
def caseFold (s : String) : String :=
  ⟨s.data.map asciiLower⟩

/-- List-prefix test (auxiliary for the substring test below). -/
def startsWithList : List Char → List Char → Bool
  | [], _ => true
  | _ :: _, [] => false
  | a :: as, b :: bs => a == b && startsWithList as bs

/-- Needle occurs somewhere inside the haystack. -/
def containsList (needle : List Char) : List Char → Bool
  | [] => startsWithList needle []
  | b :: bs => startsWithList needle (b :: bs) || containsList needle bs

/-- Python `needle in hay` on strings (substring test). -/
def containsSub (needle hay : String) : Bool :=
  containsList needle.data hay.data

/-- Python `str.split(sep)` for a one-character separator, keeping empty
pieces (the semantics of `inner.split(",")` in the array codec). -/
def splitOnChar (sep : Char) : List Char → List (List Char)
  | [] => [[]]
  | c :: rest =>
    if c == sep then [] :: splitOnChar sep rest
    else
      match splitOnChar sep rest with
      | [] => [[c]]
      | p :: ps => (c :: p) :: ps

/-- First element is `c` (Python `str.startswith` for one character). -/
def headIs (c : Char) : List Char → Bool
  | [] => false
  | x :: _ => x == c

/-- Last element is `c` (Python `str.endswith` for one character). -/
def lastIs (c : Char) (l : List Char) : Bool :=
  headIs c l.reverse

/-- Python `text[1:-1]`. -/
def middleChars (l : List Char) : List Char :=
  (l.drop 1).dropLast

/-- Python `s[:n]`. -/
def takeN (s : String) (n : Nat) : String :=
  ⟨s.data.take n⟩

/-- A cell value as delivered by the tabular reader: `vNull` is Python
`None`, `vNaN` the pandas float NaN placed in empty cells, and the other
constructors the scalar/list payloads the scripts actually see. -/
inductive Value where
  | vNull
  | vNaN
  | vBool (b : Bool)
  | vInt (n : Int)
  | vStr (s : String)
  | vList (xs : List String)
deriving DecidableEq, Repr, Inhabited

open Value

/-- Embeds `_is_empty` (identical in both scripts): `None`, NaN and
blank/whitespace-only strings are empty. -/
def is_empty : Value → Bool
  | vNull => true
  | vNaN => true
  | vStr s => pyStrip s == ""
  | _ => false

/-- Python `str(value)` on the cell values above (`str` of a list never
arises on the codec paths proved about below). -/
def pyStrOfValue : Value → String
  | vNull => "None"
  | vNaN => "nan"
  | vBool true => "True"
  | vBool false => "False"
  | vInt n => toString n
  | vStr s => s
  | vList xs => String.intercalate ", " xs

/-- Python truthiness `bool(v)` for the cell values above. -/
def truthy : Value → Bool
  | vNull => false
  | vNaN => true
  | vBool b => b
  | vInt n => n != 0
  | vStr s => s != ""
  | vList xs => !xs.isEmpty

/-- Parsed JSON documents, as produced by Python `json.loads`.  Number
tokens keep their source lexeme (Python float repr is out of scope). -/
inductive JVal where
  | jnull
  | jbool (b : Bool)
  | jnum (lex : String)
  | jstr (s : String)
  | jarr (xs : List JVal)
  | jobj (kvs : List (String × JVal))

open JVal

/-- JSON inter-token whitespace (exactly the four characters Python's
decoder skips). -/
def jsonWsChar (c : Char) : Bool :=
  c == ' ' || c == '\t' || c == '\n' || c == '\x0d'

/-- Skip JSON whitespace. -/
def skipJWs (l : List Char) : List Char :=
  l.dropWhile jsonWsChar

/-- Hex digit value. -/
def hexVal (c : Char) : Option Nat :=
  let n := c.toNat
  if 48 ≤ n && n ≤ 57 then some (n - 48)
  else if 97 ≤ n && n ≤ 102 then some (n - 87)
  else if 65 ≤ n && n ≤ 70 then some (n - 55)
  else none

/-- The table of one-character JSON escapes: source character paired
with the character it denotes. -/
def jsonEscapeTable : List (Char × Char) :=
  [('"', '"'), ('\\', '\\'), ('/', '/'), ('b', '\x08'), ('f', '\x0c'),
   ('n', '\n'), ('r', '\x0d'), ('t', '\t')]

/-- One-character JSON escapes, looked up in the table. -/
def jsonEscChar (c : Char) : Option Char :=
  (jsonEscapeTable.find? (fun pr => pr.1 == c)).map Prod.snd

/-- Scan a JSON string body (the opening quote is already consumed),
returning the decoded characters and the input after the closing quote.
Strict mode: unescaped control characters are rejected, as in Python.
Lone `\uXXXX` surrogates are mapped to U+FFFD (surrogate pairs never
occur in the data the scripts handle). -/
def scanJString : List Char → Option (List Char × List Char)
  | [] => none
  | c :: rest =>
    if c == '"' then some ([], rest)
    else if c == '\\' then
      match rest with
      | [] => none
      | e :: rest2 =>
        if e == 'u' then
          match rest2 with
          | a :: b :: c2 :: d :: rest3 =>
            match hexVal a, hexVal b, hexVal c2, hexVal d with
            | some ha, some hb, some hc, some hd =>
              match scanJString rest3 with
              | some (cs, r) =>
                let n := ((ha * 16 + hb) * 16 + hc) * 16 + hd
                some ((if n < 0xd800 || 0xe000 ≤ n then Char.ofNat n
                       else '�') :: cs, r)
              | none => none
            | _, _, _, _ => none
          | _ => none
        else
          match jsonEscChar e with
          | some ec =>
            match scanJString rest2 with
            | some (cs, r) => some (ec :: cs, r)
            | none => none
          | none => none
    else if c.toNat < 0x20 then none
    else
      match scanJString rest with
      | some (cs, r) => some (c :: cs, r)
      | none => none

/-- Longest digit run. -/
def scanDigits (l : List Char) : List Char × List Char :=
  (l.takeWhile Char.isDigit, l.dropWhile Char.isDigit)

/-- Integer part of a JSON number: `0` or a nonzero digit followed by
digits (the leading-zero rule of the JSON grammar). -/
def scanIntPart : List Char → Option (List Char × List Char)
  | [] => none
  | c :: rest =>
    if c == '0' then some (['0'], rest)
    else if c.isDigit then
      match scanDigits rest with
      | (ds, r) => some (c :: ds, r)
    else none

/-- Optional fractional part `.digits`. -/
def scanFracPart (l : List Char) : List Char × List Char :=
  match l with
  | '.' :: c :: rest =>
    if c.isDigit then
      match scanDigits rest with
      | (ds, r) => ('.' :: c :: ds, r)
    else ([], l)
  | _ => ([], l)

/-- Optional exponent part `[eE][+-]?digits`. -/
def scanExpPart (l : List Char) : List Char × List Char :=
  match l with
  | e :: s :: c :: rest =>
    if (e == 'e' || e == 'E') && (s == '+' || s == '-') && c.isDigit then
      match scanDigits rest with
      | (ds, r) => (e :: s :: c :: ds, r)
    else if (e == 'e' || e == 'E') && s.isDigit then
      match scanDigits (c :: rest) with
      | (ds, r) => (e :: s :: ds, r)
    else ([], l)
  | e :: s :: rest =>
    if (e == 'e' || e == 'E') && s.isDigit then
      match scanDigits rest with
      | (ds, r) => (e :: s :: ds, r)
    else ([], l)
  | _ => ([], l)

/-- Scan a JSON number, returning its lexeme. -/
def scanJNumber (l : List Char) : Option (List Char × List Char) :=
  match l with
  | '-' :: rest =>
    match scanIntPart rest with
    | some (ip, r) =>
      match scanFracPart r with
      | (fp, r2) =>
        match scanExpPart r2 with
        | (ep, r3) => some ('-' :: (ip ++ fp ++ ep), r3)
    | none => none
  | _ =>
    match scanIntPart l with
    | some (ip, r) =>
      match scanFracPart r with
      | (fp, r2) =>
        match scanExpPart r2 with
        | (ep, r3) => some (ip ++ fp ++ ep, r3)
    | none => none

/-- Match a literal keyword prefix. -/
def dropKeyword : List Char → List Char → Option (List Char)
  | [], l => some l
  | p :: ps, c :: cs => if c == p then dropKeyword ps cs else none
  | _ :: _, [] => none

mutual

/-- Recursive-descent scanner for one JSON value, mirroring Python's
`json.scanner`: dispatch on the first character; no leading-whitespace
skip (callers skip).  Fuel decreases on every nested call; the top level
supplies more fuel than the input length, so fuel never runs out on the
paths the scripts exercise. -/
def parseJVal : Nat → List Char → Option (JVal × List Char)
  | 0, _ => none
  | fuel + 1, l =>
    match l with
    | [] => none
    | c :: rest =>
      if c == '{' then
        match parseJObjItems fuel rest with
        | some (kvs, r) => some (jobj kvs, r)
        | none => none
      else if c == '[' then
        match parseJArrItems fuel rest with
        | some (xs, r) => some (jarr xs, r)
        | none => none
      else if c == '"' then
        match scanJString rest with
        | some (cs, r) => some (jstr ⟨cs⟩, r)
        | none => none
      else if c == 't' then
        match dropKeyword ['r', 'u', 'e'] rest with
        | some r => some (jbool true, r)
        | none => none
      else if c == 'f' then
        match dropKeyword ['a', 'l', 's', 'e'] rest with
        | some r => some (jbool false, r)
        | none => none
      else if c == 'n' then
        match dropKeyword ['u', 'l', 'l'] rest with
        | some r => some (jnull, r)
        | none => none
      else if c == 'N' then
        match dropKeyword ['a', 'N'] rest with
        | some r => some (jnum "nan", r)
        | none => none
      else if c == 'I' then
        match dropKeyword ['n', 'f', 'i', 'n', 'i', 't', 'y'] rest with
        | some r => some (jnum "inf", r)
        | none => none
      else if c == '-' && headIs 'I' rest then
        match dropKeyword ['I', 'n', 'f', 'i', 'n', 'i', 't', 'y'] rest with
        | some r => some (jnum "-inf", r)
        | none => none
      else
        match scanJNumber (c :: rest) with
        | some (lex, r) => some (jnum ⟨lex⟩, r)
        | none => none

/-- Array items after the opening bracket (empty array allowed here). -/
def parseJArrItems : Nat → List Char → Option (List JVal × List Char)
  | 0, _ => none
  | fuel + 1, l =>
    match skipJWs l with
    | [] => parseJArrBody fuel []
    | c :: r => if c == ']' then some ([], r) else parseJArrBody fuel (c :: r)

/-- One array item followed by `,` (more items) or `]` (end). -/
def parseJArrBody : Nat → List Char → Option (List JVal × List Char)
  | 0, _ => none
  | fuel + 1, l =>
    match parseJVal fuel l with
    | none => none
    | some (v, r) =>
      match skipJWs r with
      | [] => none
      | c :: r2 =>
        if c == ',' then
          match parseJArrBody fuel (skipJWs r2) with
          | some (xs, r3) => some (v :: xs, r3)
          | none => none
        else if c == ']' then some ([v], r2)
        else none

/-- Object members after the opening brace (empty object allowed here). -/
def parseJObjItems : Nat → List Char → Option (List (String × JVal) × List Char)
  | 0, _ => none
  | fuel + 1, l =>
    match skipJWs l with
    | [] => parseJObjBody fuel []
    | c :: r => if c == '}' then some ([], r) else parseJObjBody fuel (c :: r)

/-- One `key : value` member followed by `,` (more members) or `}`. -/
def parseJObjBody : Nat → List Char → Option (List (String × JVal) × List Char)
  | 0, _ => none
  | fuel + 1, l =>
    match l with
    | [] => none
    | c :: r0 =>
      if c == '"' then
        match scanJString r0 with
        | none => none
        | some (key, r1) =>
          match skipJWs r1 with
          | [] => none
          | c2 :: r2 =>
            if c2 == ':' then
              match parseJVal fuel (skipJWs r2) with
              | none => none
              | some (v, r3) =>
                match skipJWs r3 with
                | [] => none
                | c3 :: r4 =>
                  if c3 == ',' then
                    match parseJObjBody fuel (skipJWs r4) with
                    | some (kvs, r5) => some ((⟨key⟩, v) :: kvs, r5)
                    | none => none
                  else if c3 == '}' then some ([(⟨key⟩, v)], r4)
                  else none
            else none
      else none

end

/-- Python `json.loads`: skip surrounding whitespace, scan one value,
require the input to be exhausted. -/
def json_loads (s : String) : Option JVal :=
  match parseJVal (s.data.length + 1) (skipJWs s.data) with
  | some (v, rest) => if skipJWs rest == [] then some v else none
  | none => none

/-- Integer-shaped lexeme (optional minus, then digits only). -/
def isIntLexeme (l : List Char) : Bool :=
  match l with
  | '-' :: ds => !ds.isEmpty && ds.all Char.isDigit
  | ds => !ds.isEmpty && ds.all Char.isDigit

/-- Python `str()` of a parsed JSON number.  Integer lexemes print as
themselves (JSON forbids leading zeros; `-0` prints as `0`); float
lexemes are kept as written, an approximation noted at the top of the
file. -/
def pyNumRepr (lex : String) : String :=
  if lex == "nan" || lex == "inf" || lex == "-inf" then lex
  else if isIntLexeme lex.data then (if lex == "-0" then "0" else lex)
  else lex

/-- Escape body for Python `repr` of a string with quote character `q`
(control characters beyond the common three rendered as `\xhh`). -/
def pyReprStrEsc (q : Char) (l : List Char) : List Char :=
  l.flatMap fun c =>
    if c == '\\' then ['\\', '\\']
    else if c == q then ['\\', q]
    else if c == '\n' then ['\\', 'n']
    else if c == '\x0d' then ['\\', 'r']
    else if c == '\t' then ['\\', 't']
    else if c.toNat < 32 || c.toNat == 127 then
      ['\\', 'x', Char.ofNat (if c.toNat / 16 < 10 then 48 + c.toNat / 16 else 87 + c.toNat / 16),
       Char.ofNat (if c.toNat % 16 < 10 then 48 + c.toNat % 16 else 87 + c.toNat % 16)]
    else [c]

/-- Python `repr()` of a string (single quotes unless the text holds a
single quote and no double quote). -/
def pyReprStr (s : String) : String :=
  let q : Char := if s.data.contains '\x27' && !s.data.contains '"' then '"' else '\x27'
  ⟨q :: pyReprStrEsc q s.data ++ [q]⟩

mutual

/-- Python `repr()` of a parsed JSON value. -/
def pyReprJ : JVal → String
  | JVal.jnull => "None"
  | JVal.jbool true => "True"
  | JVal.jbool false => "False"
  | JVal.jnum lex => pyNumRepr lex
  | JVal.jstr s => pyReprStr s
  | JVal.jarr xs => "[" ++ String.intercalate ", " (pyReprL xs) ++ "]"
  | JVal.jobj kvs => "\x7b" ++ String.intercalate ", " (pyReprKVs kvs) ++ "\x7d"

/-- `repr` of each element of a list. -/
def pyReprL : List JVal → List String
  | [] => []
  | x :: xs => pyReprJ x :: pyReprL xs

/-- `repr` of each `key: value` member of a dict. -/
def pyReprKVs : List (String × JVal) → List String
  | [] => []
  | (k, v) :: xs => (pyReprStr k ++ ": " ++ pyReprJ v) :: pyReprKVs xs

end

/-- Python `str()` of a parsed JSON value: the string itself for
strings, `repr` otherwise. -/
def pyStrJ : JVal → String
  | JVal.jstr s => s
  | v => pyReprJ v

/-- Embeds `_parse_json_array` from
`scripts/audit_and_clean_exercises_csv.py`: returns
`(items, was_valid_json)`.  Structure follows the source line by line:
empty input and native lists short-circuit, then strict JSON is
attempted, then the brace-literal heuristic, and any remaining input is
coerced to a single item with the `false` flag. -/
def parse_json_array (v : Value) : List String × Bool :=
  if is_empty v then ([], true)
  else
    match v with
    | Value.vList xs => (xs, true)
    | _ =>
      let text := pyStrip (pyStrOfValue v)
      if text == "" then ([], true)
      else
        match json_loads text with
        | some (JVal.jarr xs) =>
          ((xs.map pyStrJ).filter (fun s => pyStrip s != ""), true)
        | some _ => ([text], false)
        | none =>
          if headIs '{' text.data && lastIs '}' text.data then
            let inner : String := ⟨pyStripP pyIsWs (middleChars text.data)⟩
            if inner == "" then ([], true)
            else
              (((splitOnChar ',' inner.data).map
                (fun p => (⟨pyStripP (fun c => c == '"') (pyStripP pyIsWs p)⟩ : String))), true)
          else ([text], false)

/-- First escaping pass of `_pg_array_literal`: backslash doubling. -/
def escBackslashChars (l : List Char) : List Char :=
  l.flatMap fun c => if c == '\\' then ['\\', '\\'] else [c]

/-- Second escaping pass of `_pg_array_literal`: quote escaping. -/
def escQuoteChars (l : List Char) : List Char :=
  l.flatMap fun c => if c == '"' then ['\\', '"'] else [c]

/-- `s.replace("\\", "\\\\").replace('"', '\\"')` — backslash first. -/
def escChars (l : List Char) : List Char :=
  escQuoteChars (escBackslashChars l)

/-- String-level view of the escaping used by `_pg_array_literal`. -/
def escapeItem (s : String) : String :=
  ⟨escChars s.data⟩

/-- One encoded element: escaped and wrapped in double quotes. -/
def quotedChars (l : List Char) : List Char :=
  '"' :: escChars l ++ ['"']

/-- Character-level body of `_pg_array_literal`. -/
def pgLitChars (ls : List (List Char)) : List Char :=
  '{' :: List.intercalate [','] (ls.map quotedChars) ++ ['}']

/-- Embeds `_pg_array_literal` (identical in both scripts): escape each
item (backslash first, then quote), wrap in double quotes, join with
commas, wrap in braces. -/
def pg_array_literal (items : List String) : String :=
  ⟨pgLitChars (items.map String.data)⟩

/-- Embeds `_clean_str` from `scripts/convert_functional_fitness_xlsx.py`:
empty-like values become `""`, anything else is stringified and
stripped. -/
def clean_str (v : Value) : String :=
  if is_empty v then "" else pyStrip (pyStrOfValue v)

/-- Embeds `_map_difficulty`: case-insensitive keyword bucketing into
`beginner` / `intermediate` / `advanced` / `""`. -/
def map_difficulty (level : String) : String :=
  let s := caseFold (clean_str (Value.vStr level))
  if s == "" then ""
  else if s == "beginner" || s == "novice" then "beginner"
  else if s == "intermediate" then "intermediate"
  else if s == "advanced" || s == "expert" || s == "master" || s == "grand master"
       || s == "legendary" then "advanced"
  else ""

/-- Embeds `_map_category`: exact body-region buckets first, then muscle
keyword inference over the concatenated prime-mover and target-group
text, then the upper-body default, then `full_body`. -/
def map_category (body_region prime_mover target_group : String) : String :=
  let br := caseFold (clean_str (Value.vStr body_region))
  let pm := clean_str (Value.vStr prime_mover)
  let tg := clean_str (Value.vStr target_group)
  if br == "lower body" then "legs"
  else if br == "core" then "core"
  else if br == "full body" then "full_body"
  else
    let upper_hint := caseFold (pm ++ " " ++ tg)
    if ["pectoralis", "chest"].any (fun k => containsSub k upper_hint) then "chest"
    else if ["latissimus", "trapezi", "rhombo", "erector", "back"].any
         (fun k => containsSub k upper_hint) then "back"
    else if ["deltoid", "shoulder", "rotator"].any
         (fun k => containsSub k upper_hint) then "shoulders"
    else if ["biceps", "triceps", "forearm", "wrist", "brachii"].any
         (fun k => containsSub k upper_hint) then "arms"
    else if br == "upper body" then "arms"
    else "full_body"

/-- The muscle-keyword rule table of `_map_category`, written as the
explicit ordered first-match list that the spec's design notes call
for. -/
def categoryKeywordRules : List (List String × String) :=
  [(["pectoralis", "chest"], "chest"),
   (["latissimus", "trapezi", "rhombo", "erector", "back"], "back"),
   (["deltoid", "shoulder", "rotator"], "shoulders"),
   (["biceps", "triceps", "forearm", "wrist", "brachii"], "arms")]

/-- First rule whose keyword list has a hit in the hint text. -/
def firstRuleMatch (hint : String) : List (List String × String) → Option String
  | [] => none
  | (kws, cat) :: rest =>
    if kws.any (fun k => containsSub k hint) then some cat
    else firstRuleMatch hint rest

/-- Spec-shaped reformulation of the category mapper: exact body-region
buckets, then the ordered keyword rule table, then the defaults.  Used
to state the amended C2 as a refinement of `map_category`. -/
def mapCategorySpec (body_region prime_mover target_group : String) : String :=
  let br := caseFold (clean_str (Value.vStr body_region))
  if br == "lower body" then "legs"
  else if br == "core" then "core"
  else if br == "full body" then "full_body"
  else
    let hint := caseFold (clean_str (Value.vStr prime_mover) ++ " "
      ++ clean_str (Value.vStr target_group))
    match firstRuleMatch hint categoryKeywordRules with
    | some cat => cat
    | none => if br == "upper body" then "arms" else "full_body"

/-- The closed category set of the spec. -/
def categorySet : List String :=
  ["legs", "core", "full_body", "chest", "back", "shoulders", "arms"]

/-- Embeds `_dedupe_case_insensitive`: keep first-seen casing and order,
match case-insensitively after trimming, drop empties.  The Python
`seen` set is modelled as the list of casefolded keys already kept. -/
def dedupeAux (seen : List String) : List String → List String
  | [] => []
  | item :: rest =>
    let s := clean_str (Value.vStr item)
    if s == "" then dedupeAux seen rest
    else
      let key := caseFold s
      if seen.contains key then dedupeAux seen rest
      else s :: dedupeAux (key :: seen) rest

/-- Entry point of `_dedupe_case_insensitive`. -/
def dedupe_case_insensitive (items : List String) : List String :=
  dedupeAux [] items

/-- Worker for Python `str.split()`: `acc` holds the reversed current
token. -/
def pyTokensAux : List Char → List Char → List (List Char)
  | acc, [] => if acc.isEmpty then [] else [acc.reverse]
  | acc, c :: rest =>
    if pyIsWs c then
      if acc.isEmpty then pyTokensAux [] rest
      else acc.reverse :: pyTokensAux [] rest
    else pyTokensAux (c :: acc) rest

/-- Tokens of Python `str.split()` (split on whitespace runs, dropping
empties). -/
def pyTokens (l : List Char) : List (List Char) :=
  pyTokensAux [] l

/-- `" ".join(tokens)`: single spaces between tokens. -/
def joinWithSpace : List (List Char) → List Char
  | [] => []
  | [t] => t
  | t :: t2 :: rest => t ++ ' ' :: joinWithSpace (t2 :: rest)

/-- Python `" ".join(name.split())`: collapse internal whitespace. -/
def normWsJoin (s : String) : String :=
  ⟨joinWithSpace (pyTokens s.data)⟩

/-- The pipe-joined hash key built in `main` of the spreadsheet script:
`"|".join([norm_name, primary_equipment, prime_mover, movement_1])`. -/
def mkIdKey (norm_name primary_equipment prime_mover movement_1 : String) : String :=
  norm_name ++ "|" ++ primary_equipment ++ "|" ++ prime_mover ++ "|" ++ movement_1

/-- 32-bit left rotation (values kept below 2^32). -/
def rotl (s n : Nat) : Nat :=
  ((n <<< s) ||| (n >>> (32 - s))) % 4294967296

/-- UTF-8 encoding of one character. -/
def utf8Bytes (c : Char) : List Nat :=
  let n := c.toNat
  if n < 128 then [n]
  else if n < 2048 then [192 ||| (n >>> 6), 128 ||| (n &&& 63)]
  else if n < 65536 then
    [224 ||| (n >>> 12), 128 ||| ((n >>> 6) &&& 63), 128 ||| (n &&& 63)]
  else
    [240 ||| (n >>> 18), 128 ||| ((n >>> 12) &&& 63),
     128 ||| ((n >>> 6) &&& 63), 128 ||| (n &&& 63)]

/-- UTF-8 bytes of a string (Python `str.encode("utf-8")`). -/
def strUtf8 (s : String) : List Nat :=
  s.data.flatMap utf8Bytes

/-- Big-endian 8-byte encoding of a (64-bit) length. -/
def beBytes8 (n : Nat) : List Nat :=
  [(n >>> 56) &&& 255, (n >>> 48) &&& 255, (n >>> 40) &&& 255, (n >>> 32) &&& 255,
   (n >>> 24) &&& 255, (n >>> 16) &&& 255, (n >>> 8) &&& 255, n &&& 255]

/-- Big-endian 4-byte encoding of a 32-bit word. -/
def beBytes4 (n : Nat) : List Nat :=
  [(n >>> 24) &&& 255, (n >>> 16) &&& 255, (n >>> 8) &&& 255, n &&& 255]

/-- SHA-1 message padding: `0x80`, zeros to 56 mod 64, 8-byte bit
length. -/
def sha1Pad (msg : List Nat) : List Nat :=
  msg ++ 128 :: List.replicate ((119 - msg.length % 64) % 64) 0
    ++ beBytes8 (msg.length * 8)

/-- Split into chunks of size `m + 1`. -/
def chunksBy (m : Nat) : List Nat → List (List Nat)
  | [] => []
  | x :: rest => ((x :: rest).take (m + 1)) :: chunksBy m ((x :: rest).drop (m + 1))
termination_by l => l.length
decreasing_by simp only [List.length_drop, List.length_cons]; omega

/-- Big-endian word from four bytes. -/
def beWord : List Nat → Nat
  | [a, b, c, d] => ((a * 256 + b) * 256 + c) * 256 + d
  | _ => 0

/-- The sixteen 32-bit words of one 64-byte block. -/
def words16 (block : List Nat) : List Nat :=
  (chunksBy 3 block).map beWord

/-- SHA-1 message-schedule extension (`w[i] = rotl1 (w[i-3] ^ w[i-8] ^
w[i-14] ^ w[i-16])`), run `fuel` more steps. -/
def schedExtend : Array Nat → Nat → Array Nat
  | w, 0 => w
  | w, fuel + 1 =>
    let n := w.size
    schedExtend
      (w.push (rotl 1 (((w.getD (n - 3) 0) ^^^ (w.getD (n - 8) 0))
        ^^^ ((w.getD (n - 14) 0) ^^^ (w.getD (n - 16) 0))))) fuel

/-- SHA-1 round function and constant for round `i`. -/
def sha1FK (i b c d : Nat) : Nat × Nat :=
  if i < 20 then ((b &&& c) ||| ((b ^^^ 4294967295) &&& d), 1518500249)
  else if i < 40 then ((b ^^^ c) ^^^ d, 1859775393)
  else if i < 60 then (((b &&& c) ||| (b &&& d)) ||| (c &&& d), 2400959708)
  else ((b ^^^ c) ^^^ d, 3395469782)

/-- Compress one 64-byte block into the running state. -/
def sha1Block (st : Nat × Nat × Nat × Nat × Nat) (block : List Nat) :
    Nat × Nat × Nat × Nat × Nat :=
  let w := schedExtend (words16 block).toArray 64
  let r := (List.range 80).foldl
    (fun (s : Nat × Nat × Nat × Nat × Nat) i =>
      let (a, b, c, d, e) := s
      let (f, k) := sha1FK i b c d
      ((rotl 5 a + f + e + k + w.getD i 0) % 4294967296, a, rotl 30 b, c, d))
    st
  let (a, b, c, d, e) := st
  let (a2, b2, c2, d2, e2) := r
  ((a + a2) % 4294967296, (b + b2) % 4294967296, (c + c2) % 4294967296,
   (d + d2) % 4294967296, (e + e2) % 4294967296)

/-- SHA-1 digest (20 bytes) of a byte message. -/
def sha1 (msg : List Nat) : List Nat :=
  let st := (chunksBy 63 (sha1Pad msg)).foldl sha1Block
    (1732584193, 4023233417, 2562383102, 271733878, 3285377520)
  beBytes4 st.1 ++ beBytes4 st.2.1 ++ beBytes4 st.2.2.1
    ++ beBytes4 st.2.2.2.1 ++ beBytes4 st.2.2.2.2

/-- Set the RFC 4122 version (5) and variant bits in a 16-byte UUID. -/
def setUuidBits (bs : List Nat) : List Nat :=
  ((bs.set 6 ((bs.getD 6 0 &&& 15) ||| 80)).set 8
    (((bs.set 6 ((bs.getD 6 0 &&& 15) ||| 80)).getD 8 0 &&& 63) ||| 128))

/-- Lowercase hex digit. -/
def hexDigitChar (n : Nat) : Char :=
  if n < 10 then Char.ofNat (48 + n) else Char.ofNat (87 + n)

/-- Two hex digits of one byte. -/
def byteHexChars (b : Nat) : List Char :=
  [hexDigitChar (b / 16 % 16), hexDigitChar (b % 16)]

/-- Hex rendering of a byte list. -/
def bytesHexChars (bs : List Nat) : List Char :=
  bs.flatMap byteHexChars

/-- `str(uuid.UUID(bytes=...))`: 8-4-4-4-12 lowercase hex groups. -/
def formatUuidBytes (bs : List Nat) : String :=
  ⟨bytesHexChars (bs.take 4) ++ '-' :: bytesHexChars ((bs.drop 4).take 2)
    ++ '-' :: bytesHexChars ((bs.drop 6).take 2)
    ++ '-' :: bytesHexChars ((bs.drop 8).take 2)
    ++ '-' :: bytesHexChars ((bs.drop 10).take 6)⟩

/-- The 16 bytes of `uuid.NAMESPACE_URL`
(6ba7b811-9dad-11d1-80b4-00c04fd430c8). -/
def NAMESPACE_URL_BYTES : List Nat :=
  [107, 167, 184, 17, 157, 173, 17, 209, 128, 180, 0, 192, 79, 212, 48, 200]

/-- `str(uuid.uuid5(uuid.NAMESPACE_URL, name))`. -/
def uuid5_url (name : String) : String :=
  formatUuidBytes (setUuidBits ((sha1 (NAMESPACE_URL_BYTES ++ strUtf8 name)).take 16))

/-- Embeds `_stable_exercise_id`: a uuid5 over the namespaced key. -/
def stable_exercise_id (key : String) : String :=
  uuid5_url ("functional-fitness:" ++ key)

/-- One source row of the spreadsheet script, with the named cells its
`main` loop reads (hyperlink extraction is the external reader's job;
the two URL cells arrive as the already-extracted targets). -/
structure XRow where
  exercise : Value
  targetGroup : Value
  primeMover : Value
  secondaryMuscle : Value
  tertiaryMuscle : Value
  primaryEquipment : Value
  secondaryEquipment : Value
  mechanics : Value
  bodyRegion : Value
  movement1 : Value
  movement2 : Value
  movement3 : Value
  forceType : Value
  posture : Value
  grip : Value
  loadPos : Value
  laterality : Value
  primaryClassification : Value
  shortUrl : Value
  longUrl : Value
  difficultyLevel : Value
deriving Inhabited

/-- One output record of the spreadsheet script (all columns hold
strings, as written to the CSV). -/
structure OutRow where
  id : String
  name : String
  description : String
  category : String
  muscle_groups : String
  equipment_needed : String
  difficulty : String
  instructions : String
  video_url : String
  image_url : String
  is_compound : String
  is_custom : String
  created_by : String
  created_at : String
  exercisedb_id : String
  gif_url : String
  tips : String
  last_synced_at : String
  sync_status : String
deriving DecidableEq, Inhabited

/-- The labelled tip lines built in the spreadsheet `main` loop. -/
def tipEntries (r : XRow) : List String :=
  (([("Classification", clean_str r.primaryClassification),
     ("Mechanics", clean_str r.mechanics),
     ("Movement", clean_str r.movement1),
     ("Movement", clean_str r.movement2),
     ("Movement", clean_str r.movement3),
     ("Posture", clean_str r.posture),
     ("Grip", clean_str r.grip),
     ("Load position", clean_str r.loadPos),
     ("Laterality", clean_str r.laterality),
     ("Force type", clean_str r.forceType)]).filter
    (fun lv => lv.2 != "")).map (fun lv => lv.1 ++ ": " ++ lv.2)

/-- The body of the spreadsheet `main` loop for one row: `none` when the
Exercise cell is empty (row skipped), otherwise the output record and
the casefolded normalized-name key added to `name_counts`. -/
def processRow (nowUtc : String) (r : XRow) : Option (OutRow × String) :=
  let name := clean_str r.exercise
  if name == "" then none
  else
    let norm_name := normWsJoin name
    let name_key := caseFold norm_name
    let target_group := clean_str r.targetGroup
    let prime_mover := clean_str r.primeMover
    let primary_equipment := clean_str r.primaryEquipment
    let mechanics := clean_str r.mechanics
    let body_region := clean_str r.bodyRegion
    let movement_1 := clean_str r.movement1
    let short_url := clean_str r.shortUrl
    let long_url := clean_str r.longUrl
    let difficulty := map_difficulty (clean_str r.difficultyLevel)
    let category := map_category body_region prime_mover target_group
    let muscle_groups := dedupe_case_insensitive
      [target_group, prime_mover, clean_str r.secondaryMuscle, clean_str r.tertiaryMuscle]
    let equipment_needed := dedupe_case_insensitive
      [primary_equipment, clean_str r.secondaryEquipment]
    let video_url := if short_url != "" then short_url else long_url
    let tips := tipEntries r
      ++ (if long_url != "" && long_url != video_url
          then ["In-depth video: " ++ long_url] else [])
    let desc_parts := dedupe_case_insensitive
      [clean_str r.primaryClassification, movement_1, target_group, body_region]
    let description := String.intercalate " · " (desc_parts.take 4)
    let exercise_id := stable_exercise_id
      (mkIdKey norm_name primary_equipment prime_mover movement_1)
    let is_compound := if caseFold mechanics == "compound" then "true" else "false"
    some ({ id := exercise_id, name := norm_name, description := description,
            category := category,
            muscle_groups := pg_array_literal muscle_groups,
            equipment_needed := pg_array_literal equipment_needed,
            difficulty := difficulty, instructions := pg_array_literal [],
            video_url := video_url, image_url := "",
            is_compound := is_compound, is_custom := "false",
            created_by := "", created_at := nowUtc, exercisedb_id := "",
            gif_url := "", tips := pg_array_literal tips,
            last_synced_at := "", sync_status := "pending" }, name_key)

/-- The spreadsheet `main` loop over all rows: output records in order
plus the sequence of keys entering `name_counts`. -/
def processRows (nowUtc : String) : List XRow → List OutRow × List String
  | [] => ([], [])
  | r :: rest =>
    match processRow nowUtc r, processRows nowUtc rest with
    | none, (outs, keys) => (outs, keys)
    | some (o, k), (outs, keys) => (o :: outs, k :: keys)

/-- The collision-repair pass of the spreadsheet `main`: `prev` holds
the ids already traversed (the Python `seen` counter is the number of
occurrences there). -/
def dedupIdsAux (prev : List String) : List String → List String
  | [] => []
  | x :: rest =>
    (if prev.count x == 0 then x
     else stable_exercise_id (x ++ ":" ++ toString (prev.count x + 1)))
      :: dedupIdsAux (prev ++ [x]) rest

/-- Entry point of the collision-repair pass. -/
def dedupIds (ids : List String) : List String :=
  dedupIdsAux [] ids

/-- Any element repeated?  (`out_df["id"].duplicated().any()`.) -/
def hasDup : List String → Bool
  | [] => false
  | x :: rest => rest.contains x || hasDup rest

/-- Replace the ids of the output rows by the given list, positionally
(`out_df["id"] = new_ids`). -/
def setIds : List OutRow → List String → List OutRow
  | [], _ => []
  | _ :: _, [] => []
  | r :: rs, i :: is2 => { r with id := i } :: setIds rs is2

/-- The id-deduplication step of the spreadsheet `main`, including its
`duplicated().any()` guard. -/
def finalizeIds (rows : List OutRow) : List OutRow :=
  if hasDup (rows.map OutRow.id) then setIds rows (dedupIds (rows.map OutRow.id))
  else rows

/-- Case/space-insensitive duplicate count over already-seen keys
(pandas `duplicated().sum()`: occurrences after the first). -/
def countDupAux (seen : List String) : List String → Nat
  | [] => 0
  | x :: rest => (if seen.contains x then 1 else 0) + countDupAux (seen ++ [x]) rest

/-- Duplicate count of a key list. -/
def countDup (keys : List String) : Nat :=
  countDupAux [] keys

/-- One row of the CSV-audit script's array-column loop: the `id` and
`name` cells (used for example labels) and the raw array cell. -/
structure AuditRow where
  rid : String
  rname : String
  raw : Value

/-- Parse statistics of one array column (`ArrayParseStats`). -/
structure ColStats where
  total : Nat
  empty : Nat
  valid : Nat
  invalid : Nat
deriving DecidableEq, Repr

/-- Example label for an invalid row: id (or row index) plus name. -/
def exampleLabel (hasId hasName : Bool) (idx : Nat) (r : AuditRow) : String :=
  pyStrip ((if hasId then r.rid else toString idx) ++ " "
    ++ (if hasName then r.rname else ""))

/-- The per-column loop of the CSV-audit `main` (lines 114-135): counts,
invalid examples (capped at 10, raw text truncated to 200 characters),
and the re-encoded column values. -/
def processColumnAux (hasId hasName : Bool) :
    Nat → ColStats → List (String × String) → List String → List AuditRow →
    ColStats × List (String × String) × List String
  | _, st, exs, acc, [] => (st, exs, acc.reverse)
  | idx, st, exs, acc, r :: rest =>
    let st1 := { st with total := st.total + 1 }
    if is_empty r.raw then
      processColumnAux hasId hasName (idx + 1) { st1 with empty := st1.empty + 1 }
        exs (pg_array_literal [] :: acc) rest
    else
      let iv := parse_json_array r.raw
      if iv.2 then
        processColumnAux hasId hasName (idx + 1) { st1 with valid := st1.valid + 1 }
          exs (pg_array_literal iv.1 :: acc) rest
      else
        let exs2 := if exs.length < 10
          then exs ++ [(exampleLabel hasId hasName idx r,
                        takeN (pyStrOfValue r.raw) 200)]
          else exs
        processColumnAux hasId hasName (idx + 1) { st1 with invalid := st1.invalid + 1 }
          exs2 (pg_array_literal iv.1 :: acc) rest

/-- Entry point of the per-column audit loop. -/
def processColumn (hasId hasName : Bool) (rows : List AuditRow) :
    ColStats × List (String × String) × List String :=
  processColumnAux hasId hasName 0 ⟨0, 0, 0, 0⟩ [] [] rows

/-- Null-like cell (pandas `fillna` targets). -/
def isNullLike : Value → Bool
  | Value.vNull => true
  | Value.vNaN => true
  | _ => false

/-- The boolean coercion of the CSV-audit `main` (lines 137-144):
`fillna(False)` then `"true" if bool(v) else "false"`. -/
def coerce_bool (v : Value) : String :=
  let v2 := if isNullLike v then Value.vBool false else v
  if truthy v2 then "true" else "false"

/-- Whole-column boolean coercion. -/
def coerce_bool_col (col : List Value) : List String :=
  col.map coerce_bool

/-- ROOT-relative path of the CSV script's required input. -/
def INPUT_CSV : String := "database/exercises_rows.csv"

/-- ROOT-relative path of the spreadsheet script's required input. -/
def XLSX_PATH : String :=
  "database/Functional+Fitness+Exercise+Database+(version+2.9).xlsx"

/-- The in-memory table the CSV-audit script works on: which label
columns exist, the name column (for the duplicate count), and the array
and boolean columns it transforms. -/
structure AuditTable where
  hasId : Bool
  hasName : Bool
  names : List String
  arrayCols : List (String × List AuditRow)
  boolCols : List (String × List Value)

/-- Everything the CSV-audit script computes for its two output
artifacts: the re-encoded array columns, per-column statistics and
invalid examples, the coerced boolean columns, and the duplicate-name
count. -/
structure AuditResult where
  cleaned : List (String × List String)
  stats : List (String × ColStats)
  examples : List (String × List (String × String))
  boolOut : List (String × List String)
  dupNames : Nat
deriving DecidableEq

/-- The pure transformation pipeline of the CSV-audit `main` (everything
between reading the input and writing the two outputs). -/
def auditRun (t : AuditTable) : AuditResult :=
  let per := t.arrayCols.map (fun cr =>
    (cr.1, processColumn t.hasId t.hasName cr.2))
  { cleaned := per.map (fun cs => (cs.1, cs.2.2.2)),
    stats := per.map (fun cs => (cs.1, cs.2.1)),
    examples := per.map (fun cs => (cs.1, cs.2.2.1)),
    boolOut := t.boolCols.map (fun cv => (cv.1, coerce_bool_col cv.2)),
    dupNames := countDup (t.names.map (fun s => caseFold (pyStrip s))) }

/-- Effect-level model of the CSV-audit `main`: the missing-input check
aborts with the message naming the path before any processing; otherwise
the run completes and (only then) both output artifacts carry
`auditRun`'s data. -/
def audit_main (inputExists : Bool) (t : AuditTable) : Except String AuditResult :=
  if inputExists then Except.ok (auditRun t)
  else Except.error ("Missing input CSV: " ++ INPUT_CSV)

/-- The pure transformation pipeline of the spreadsheet `main`. -/
def convertRun (nowUtc : String) (rows : List XRow) : List OutRow :=
  finalizeIds (processRows nowUtc rows).1

/-- Effect-level model of the spreadsheet `main`, as `audit_main`. -/
def convert_main (xlsxExists : Bool) (nowUtc : String) (rows : List XRow) :
    Except String (List OutRow) :=
  if xlsxExists then Except.ok (convertRun nowUtc rows)
  else Except.error ("Missing XLSX: " ++ XLSX_PATH)

/-- An invalid array cell (not empty, not cleanly parsed). -/
def isInvalidCell (r : AuditRow) : Bool :=
  !is_empty r.raw && !(parse_json_array r.raw).2

/-- All invalid rows from index `idx` on, labelled, with raw text
truncated to 200 characters. -/
def invalidExamplesFrom (hasId hasName : Bool) (idx : Nat) :
    List AuditRow → List (String × String)
  | [] => []
  | r :: rest =>
    if isInvalidCell r then
      (exampleLabel hasId hasName idx r, takeN (pyStrOfValue r.raw) 200)
        :: invalidExamplesFrom hasId hasName (idx + 1) rest
    else invalidExamplesFrom hasId hasName (idx + 1) rest

/-- Spec-shaped description of the invalid-example list: the first ten
invalid rows in order, labelled, with raw text truncated to 200
characters.  Used to state the amended C8 against `processColumn`. -/
def invalidExamplesSpec (hasId hasName : Bool) (rows : List AuditRow) :
    List (String × String) :=
  (invalidExamplesFrom hasId hasName 0 rows).take 10

/-- Name made of `n` copies of `a` (injective; used to exhibit distinct
key fields whose ids must collide by counting). -/
def repName (n : Nat) : String :=
  ⟨List.replicate n 'a'⟩

/-! ## Theorems -/

/-- C5: Encode escaping — the encoder escapes backslash first and then
double quote, wraps each item in double quotes, joins with commas and
wraps in braces; encoding `[a"b, c\d]` yields exactly the literal
`{"a\"b","c\\d"}`, and encoding the empty sequence yields `{}`. -/
theorem C5_encode_escaping :
    pg_array_literal ["a\"b", "c\\d"] = "\x7b\"a\\\"b\",\"c\\\\d\"\x7d"
  ∧ pg_array_literal [] = "\x7b\x7d"
  ∧ ∀ items : List String, (pg_array_literal items).data
      = '{' :: List.intercalate [',']
          (items.map (fun s => '"' :: escChars s.data ++ ['"'])) ++ ['}'] := by
  refine ⟨by decide, by decide, fun items => ?_⟩
  simp only [pg_array_literal, pgLitChars, List.map_map]
  rfl

/-- C6: Empty-input decoding — Decode applied to the empty string, to a
null value, and to the string `[]` each returns exactly `([], true)`. -/
theorem C6_empty_inputs :
    parse_json_array (Value.vStr "") = ([], true)
  ∧ parse_json_array Value.vNull = ([], true)
  ∧ parse_json_array (Value.vStr "[]") = ([], true) := by
  decide

/-- C2 counterexample: the claim's keyword list says a muscle text
containing the substring `arm` (with no earlier-listed hint and empty
body region) maps to `arms`, but the code's keyword is `forearm`, so
`_map_category "" "arm" ""` yields `full_body`, not `arms`. -/
theorem C2_counterexample :
    map_category "" "arm" "" = "full_body" ∧ ¬ map_category "" "arm" "" = "arms" := by
  decide

/-- C2 (amended): the mapper returns exactly one element of the closed
category set under first-match precedence — exact body-region matches
first, then the ordered keyword table (pectoralis/chest → chest;
latissimus/trapezi/rhombo/erector/back → back;
deltoid/shoulder/rotator → shoulders;
biceps/triceps/forearm/wrist/brachii → arms) over the concatenated
prime-mover and target-group text, then the upper-body default, then
`full_body`. -/
theorem C2_category_precedence : ∀ br pm tg : String,
    map_category br pm tg ∈ categorySet
  ∧ map_category br pm tg = mapCategorySpec br pm tg := by
  intro br pm tg
  constructor
  · simp only [map_category, categorySet]
    split_ifs <;> simp
  · simp only [map_category, mapCategorySpec, firstRuleMatch, categoryKeywordRules]
    split_ifs <;> rfl

/-- C7: Boolean column coercion — null/NaN source values serialize as
`false`; any other value serializes as the lowercase token matching its
truth value; hence the output column holds only `true`/`false`. -/
theorem C7_bool_coercion :
    (coerce_bool Value.vNull = "false" ∧ coerce_bool Value.vNaN = "false")
  ∧ (∀ v : Value, isNullLike v = false →
      coerce_bool v = if truthy v then "true" else "false")
  ∧ (∀ col : List Value, ∀ s ∈ coerce_bool_col col, s = "true" ∨ s = "false") := by
  refine ⟨⟨rfl, rfl⟩, fun v h => ?_, fun col s hs => ?_⟩
  · simp [coerce_bool, h]
  · simp only [coerce_bool_col, List.mem_map] at hs
    obtain ⟨v, _, rfl⟩ := hs
    simp only [coerce_bool]
    split_ifs <;> simp

/-- C7 witness: the coercion theorem applied at the concrete non-null
value `True`. -/
theorem C7_witness :
    isNullLike (Value.vBool true) = false
  ∧ coerce_bool (Value.vBool true)
      = (if truthy (Value.vBool true) then "true" else "false") :=
  ⟨rfl, C7_bool_coercion.2.1 (Value.vBool true) rfl⟩

/-- C9: Missing-input abort atomicity — with the input absent, both
`main` models abort with an error naming the missing path and produce no
outputs; with it present they complete with the full transformation
result (both output artifacts). -/
theorem C9_missing_input_abort :
    (∀ t, audit_main false t = Except.error ("Missing input CSV: " ++ INPUT_CSV))
  ∧ (∀ t, audit_main true t = Except.ok (auditRun t))
  ∧ (∀ nowUtc rows, convert_main false nowUtc rows
       = Except.error ("Missing XLSX: " ++ XLSX_PATH))
  ∧ (∀ nowUtc rows, convert_main true nowUtc rows = Except.ok (convertRun nowUtc rows))
  ∧ containsSub INPUT_CSV ("Missing input CSV: " ++ INPUT_CSV) = true
  ∧ containsSub XLSX_PATH ("Missing XLSX: " ++ XLSX_PATH) = true := by
  refine ⟨fun t => rfl, fun t => rfl, fun _ _ => rfl, fun _ _ => rfl, by decide, by decide⟩

/-- The pipe separator's characters. -/
theorem pipe_data : ("|" : String).data = ['|'] := rfl

/-- The colon separator's characters. -/
theorem colon_data : (":" : String).data = [':'] := rfl

/-- The repair pass keeps the list length. -/
theorem dedupIdsAux_length (l : List String) : ∀ prev,
    (dedupIdsAux prev l).length = l.length := by
  induction l with
  | nil => intro prev; rfl
  | cons y rest ih =>
    intro prev
    simp [dedupIdsAux, ih]

/-- Positional characterization of the repair pass: position `i` keeps
its id when it has no earlier occurrence (counting also `prev`), and is
re-hashed from `id:occurrenceIndex` otherwise. -/
theorem dedupIdsAux_getD (l : List String) : ∀ prev i, i < l.length →
    (dedupIdsAux prev l).getD i "" =
      (if (prev ++ l.take i).count (l.getD i "") = 0 then l.getD i ""
       else stable_exercise_id (l.getD i "" ++ ":"
         ++ toString ((prev ++ l.take i).count (l.getD i "") + 1))) := by
  induction l with
  | nil => intro prev i h; simp at h
  | cons y rest ih =>
    intro prev i h
    match i with
    | 0 =>
      simp only [dedupIdsAux, List.take_zero, List.append_nil, List.getD_cons_zero]
      by_cases hc : prev.count y = 0 <;> simp [hc]
    | Nat.succ j =>
      have hj : j < rest.length := by
        simpa using Nat.lt_of_succ_lt_succ h
      simp only [dedupIdsAux, List.getD_cons_succ]
      rw [List.take_succ_cons]
      have := ih (prev ++ [y]) j hj
      rw [List.append_assoc] at this
      simpa using this

/-- C3 counterexample support: ids are always 36 characters long, proved
further below; here the cancellation lemma used for the key-injectivity
conjuncts.  `a ++ x ++ b = a ++ y ++ b → x = y` on strings. -/
theorem str_append_cancel (a x y b : String) (h : a ++ x ++ b = a ++ y ++ b) :
    x = y := by
  have hd := congrArg String.data h
  simp only [String.data_append] at hd
  exact String.ext (List.append_cancel_left (List.append_cancel_right hd))

/-- C3 (amended): the generator is deterministic; changing any single
key field changes the pipe-joined hash key (ids then differ unless the
underlying 128-bit digests collide); and the single-pass batch repair
keeps the first occurrence of each id unchanged while re-hashing the
`k`-th occurrence from `originalID:k`. -/
theorem C3_stable_identifier :
    (∀ k1 k2 : String, k1 = k2 → stable_exercise_id k1 = stable_exercise_id k2)
  ∧ (∀ n n' e p m : String, n ≠ n' → mkIdKey n e p m ≠ mkIdKey n' e p m)
  ∧ (∀ n e e' p m : String, e ≠ e' → mkIdKey n e p m ≠ mkIdKey n e' p m)
  ∧ (∀ n e p p' m : String, p ≠ p' → mkIdKey n e p m ≠ mkIdKey n e p' m)
  ∧ (∀ n e p m m' : String, m ≠ m' → mkIdKey n e p m ≠ mkIdKey n e p m')
  ∧ (∀ ids : List String, (dedupIds ids).length = ids.length
      ∧ ∀ i, i < ids.length → (dedupIds ids).getD i "" =
          (if (ids.take i).count (ids.getD i "") = 0 then ids.getD i ""
           else stable_exercise_id (ids.getD i "" ++ ":"
             ++ toString ((ids.take i).count (ids.getD i "") + 1)))) := by
  refine ⟨fun k1 k2 h => congrArg _ h, ?_, ?_, ?_, ?_, fun ids => ?_⟩
  · intro n n' e p m hne h
    have hd := congrArg String.data h
    simp only [mkIdKey, String.data_append, pipe_data, List.append_assoc] at hd
    exact hne (String.ext (List.append_cancel_right hd))
  · intro n e e' p m hne h
    have hd := congrArg String.data h
    simp only [mkIdKey, String.data_append, pipe_data, List.append_assoc] at hd
    have h1 := List.append_cancel_left hd
    have h2 := List.append_cancel_left h1
    exact hne (String.ext (List.append_cancel_right h2))
  · intro n e p p' m hne h
    have hd := congrArg String.data h
    simp only [mkIdKey, String.data_append, pipe_data, List.append_assoc] at hd
    have h1 := List.append_cancel_left (List.append_cancel_left hd)
    have h2 := List.append_cancel_left (List.append_cancel_left h1)
    exact hne (String.ext (List.append_cancel_right h2))
  · intro n e p m m' hne h
    have hd := congrArg String.data h
    simp only [mkIdKey, String.data_append, pipe_data, List.append_assoc] at hd
    have h1 := List.append_cancel_left (List.append_cancel_left hd)
    have h2 := List.append_cancel_left (List.append_cancel_left h1)
    have h3 := List.append_cancel_left (List.append_cancel_left h2)
    exact hne (String.ext h3)
  · refine ⟨dedupIdsAux_length ids [], fun i hi => ?_⟩
    have := dedupIdsAux_getD ids [] i hi
    simpa using this

/-- C3 witness: the key-injectivity conjunct applied at two concrete
names differing in the name field. -/
theorem C3_stable_identifier_witness :
    mkIdKey "a" "x" "y" "z" ≠ mkIdKey "b" "x" "y" "z" :=
  C3_stable_identifier.2.1 "a" "b" "x" "y" "z" (by decide)

/-- Hex rendering doubles the byte count. -/
theorem bytesHexChars_length (bs : List Nat) :
    (bytesHexChars bs).length = 2 * bs.length := by
  induction bs with
  | nil => rfl
  | cons b rest ih =>
    simp [bytesHexChars, byteHexChars] at ih ⊢
    omega

/-- SHA-1 digests have 20 bytes. -/
theorem sha1_length (msg : List Nat) : (sha1 msg).length = 20 := by
  simp [sha1, beBytes4]

/-- A 16-byte UUID formats to the canonical 36-character string. -/
theorem formatUuidBytes_length (bs : List Nat) (h : bs.length = 16) :
    (formatUuidBytes bs).length = 36 := by
  simp [formatUuidBytes, String.length_mk, bytesHexChars_length,
    List.length_take, List.length_drop, h]

/-- Every stable exercise id is a 36-character string. -/
theorem stable_exercise_id_length (k : String) :
    (stable_exercise_id k).length = 36 := by
  unfold stable_exercise_id uuid5_url
  apply formatUuidBytes_length
  simp [setUuidBits, List.length_set, List.length_take, sha1_length]

/-- Character-list form of the length fact. -/
theorem stable_exercise_id_data_length (k : String) :
    (stable_exercise_id k).data.length = 36 :=
  stable_exercise_id_length k

/-- C3 counterexample: the claim that changing any one key field always
changes the id is false — ids live in the finite set of 36-character
strings while names are unbounded, so two distinct names (all other key
fields held equal) must share an id. -/
theorem C3_counterexample :
    ∃ n1 n2 : String, n1 ≠ n2
      ∧ stable_exercise_id (mkIdKey n1 "" "" "")
          = stable_exercise_id (mkIdKey n2 "" "" "") := by
  have hbound : ∀ c : Char, c.toNat < 1114112 := by
    intro c
    have h := c.valid
    rcases h with h | h
    · exact lt_trans h (by norm_num)
    · exact h.2
  haveI : Finite Char :=
    Finite.of_injective (fun c : Char => (⟨c.toNat, hbound c⟩ : Fin 1114112))
      (fun a b hab => by
        have hn : a.toNat = b.toNat := by simpa using hab
        calc a = Char.ofNat a.toNat := (Char.ofNat_toNat a).symm
          _ = Char.ofNat b.toNat := by rw [hn]
          _ = b := Char.ofNat_toNat b)
  obtain ⟨n, m, hnm, hf⟩ := Finite.exists_ne_map_eq_of_infinite
    (fun k : ℕ => (fun i : Fin 36 =>
      (stable_exercise_id (mkIdKey (repName k) "" "" "")).data.getD i.val ' '))
  refine ⟨repName n, repName m, ?_, ?_⟩
  · intro he
    apply hnm
    have hlen := congrArg (fun s : String => s.data.length) he
    simpa [repName, List.length_replicate] using hlen
  · apply String.ext
    have hl1 := stable_exercise_id_data_length (mkIdKey (repName n) "" "" "")
    have hl2 := stable_exercise_id_data_length (mkIdKey (repName m) "" "" "")
    apply List.ext_getElem (by rw [hl1, hl2])
    intro i h1 h2
    have hi : i < 36 := by rw [hl1] at h1; exact h1
    have hpt := congrFun hf ⟨i, hi⟩
    simp only at hpt
    rw [List.getD_eq_getElem _ _ h1, List.getD_eq_getElem _ _ h2] at hpt
    exact hpt

/-- Whenever the decoder reports `false`, the items are exactly the
single stripped input text; shape lemma over all decoder branches. -/
theorem parse_false_shape (v : Value) :
    (parse_json_array v).2 = true
  ∨ parse_json_array v = ([pyStrip (pyStrOfValue v)], false) := by
  simp only [parse_json_array]
  split
  · left; rfl
  next =>
    split
    · left; rfl
    next =>
      split
      · left; rfl
      next =>
        split
        · left; rfl
        · right; rfl
        next =>
          split
          · split
            · left; rfl
            · left; rfl
          · right; rfl

/-- The audit loop's invalid counter tallies exactly the non-empty,
not-cleanly-parsed cells. -/
theorem processColumnAux_invalid (hasId hasName : Bool) (rows : List AuditRow) :
    ∀ idx st exs acc,
      (processColumnAux hasId hasName idx st exs acc rows).1.invalid
        = st.invalid + rows.countP isInvalidCell := by
  induction rows with
  | nil => intro idx st exs acc; simp [processColumnAux]
  | cons r rest ih =>
    intro idx st exs acc
    simp only [processColumnAux]
    split
    next hemp =>
      rw [ih]
      simp [List.countP_cons, isInvalidCell, hemp]
    next hemp =>
      split
      next hval =>
        rw [ih]
        simp [List.countP_cons, isInvalidCell, hemp, hval]
      next hval =>
        rw [ih]
        simp only [List.countP_cons, isInvalidCell, hemp, hval]
        simp
        omega

/-- The audit loop's example list is the first ten invalid rows,
relative to any partial accumulator. -/
theorem processColumnAux_examples (hasId hasName : Bool) (rows : List AuditRow) :
    ∀ idx st exs acc, exs.length ≤ 10 →
      (processColumnAux hasId hasName idx st exs acc rows).2.1
        = exs ++ (invalidExamplesFrom hasId hasName idx rows).take (10 - exs.length) := by
  induction rows with
  | nil => intro idx st exs acc _; simp [processColumnAux, invalidExamplesFrom]
  | cons r rest ih =>
    intro idx st exs acc hlen
    simp only [processColumnAux]
    split
    next hemp =>
      rw [ih _ _ _ _ hlen]
      simp [invalidExamplesFrom, isInvalidCell, hemp]
    next hemp =>
      split
      next hval =>
        rw [ih _ _ _ _ hlen]
        simp [invalidExamplesFrom, isInvalidCell, hemp, hval]
      next hval =>
        by_cases hfull : exs.length < 10
        · simp only [hfull, if_true]
          rw [ih]
          · simp only [invalidExamplesFrom, isInvalidCell, hemp, hval]
            simp only [Bool.not_true, Bool.not_false, Bool.and_self, if_true]
            have h10 : 10 - exs.length = (10 - (exs.length + 1)) + 1 := by omega
            rw [h10, List.take_succ_cons, List.append_assoc]
            simp
          · simp only [List.length_append, List.length_cons, List.length_nil]
            omega
        · have h10 : exs.length = 10 := by omega
          simp only [hfull, if_false]
          rw [ih _ _ _ _ hlen]
          simp [invalidExamplesFrom, isInvalidCell, hemp, hval, h10]

/-- C4 (amended): Lossy-safe decode invariant — whenever Decode reports
`wasCleanlyParsed = false` its item sequence is exactly the single
element holding the whitespace-trimmed original input text (never
empty), and in the CSV transformer the column's invalid count equals the
number of non-empty cells that failed to parse cleanly. -/
theorem C4_lossy_safe :
    (∀ v : Value, (parse_json_array v).2 = false →
        (parse_json_array v).1 = [pyStrip (pyStrOfValue v)]
      ∧ (parse_json_array v).1 ≠ [])
  ∧ (∀ hasId hasName rows,
      (processColumn hasId hasName rows).1.invalid = rows.countP isInvalidCell) := by
  constructor
  · intro v h
    rcases parse_false_shape v with hs | hs
    · rw [h] at hs; cases hs
    · rw [hs]; simp
  · intro hasId hasName rows
    have := processColumnAux_invalid hasId hasName rows 0 ⟨0, 0, 0, 0⟩ [] []
    simpa [processColumn] using this

/-- C4 witness: the invariant applied at a concrete unparseable cell. -/
theorem C4_witness :
    (parse_json_array (Value.vStr "bad(")).2 = false
  ∧ (parse_json_array (Value.vStr "bad(")).1
      = [pyStrip (pyStrOfValue (Value.vStr "bad("))] :=
  ⟨by decide, (C4_lossy_safe.1 (Value.vStr "bad(") (by decide)).1⟩

/-- C4 counterexample: the claim's items hold the original input text
verbatim, but the code strips it — an input with surrounding whitespace
comes back trimmed. -/
theorem C4_counterexample :
    parse_json_array (Value.vStr " not-json ") = (["not-json"], false)
  ∧ (["not-json"] : List String) ≠ [" not-json "] := by
  decide

/-- C8 (amended): the audit example list is exactly the first ten
invalid rows in order — label joining the row id (or the row index when
the id column is absent) with the row name (when present), text the
first 200 characters of the raw input — and hence never exceeds 10
entries. -/
theorem C8_audit_examples : ∀ (hasId hasName : Bool) (rows : List AuditRow),
    (processColumn hasId hasName rows).2.1 = invalidExamplesSpec hasId hasName rows
  ∧ (processColumn hasId hasName rows).2.1.length ≤ 10 := by
  intro hasId hasName rows
  have h := processColumnAux_examples hasId hasName rows 0 ⟨0, 0, 0, 0⟩ [] []
    (by simp)
  have hmain : (processColumn hasId hasName rows).2.1
      = invalidExamplesSpec hasId hasName rows := by
    simpa [processColumn, invalidExamplesSpec] using h
  refine ⟨hmain, ?_⟩
  rw [hmain]
  simp only [invalidExamplesSpec]
  exact List.length_take_le 10 _

set_option maxRecDepth 8192 in
/-- C8 counterexample: the recorded text is not always the raw input —
a 201-character unparseable cell is recorded truncated to 200
characters. -/
theorem C8_counterexample :
    (processColumn true true
        [⟨"7", "Long", Value.vStr ⟨List.replicate 201 'x'⟩⟩]).2.1
      = [("7 Long", (⟨List.replicate 200 'x'⟩ : String))]
  ∧ ((⟨List.replicate 200 'x'⟩ : String) ≠ (⟨List.replicate 201 'x'⟩ : String)) := by
  decide

/-- `dropWhile` never leaves a satisfying head. -/
theorem dropWhile_head_false (p : Char → Bool) :
    ∀ (l : List Char) (c : Char) (rest2 : List Char),
      l.dropWhile p = c :: rest2 → p c = false := by
  intro l
  induction l with
  | nil => intro c rest2 h; cases h
  | cons x xs ih =>
    intro c rest2 h
    by_cases hx : p x
    · rw [List.dropWhile_cons_of_pos hx] at h
      exact ih c rest2 h
    · rw [List.dropWhile_cons_of_neg hx] at h
      cases h
      simpa using hx

/-- Right-stripping yields a prefix of the input. -/
theorem stripRightP_prefix (p : Char → Bool) (m : List Char) :
    stripRightP p m <+: m := by
  have hs : m.reverse.dropWhile p <:+ m.reverse := List.dropWhile_suffix p
  have := List.reverse_prefix.mpr (by simpa using hs)
  simpa [stripRightP] using this

/-- A nonempty fully-stripped list starts with a non-matching
character. -/
theorem pyStripP_head_false (p : Char → Bool) (l : List Char) (c : Char)
    (rest2 : List Char) (h : pyStripP p l = c :: rest2) : p c = false := by
  have hpre := stripRightP_prefix p (stripLeftP p l)
  have h2 : stripRightP p (stripLeftP p l) = c :: rest2 := h
  rw [h2] at hpre
  obtain ⟨t, ht⟩ := hpre
  exact dropWhile_head_false p l c (rest2 ++ t)
    (by simpa [stripLeftP] using ht.symm)

/-- Every token produced by the splitter is nonempty. -/
theorem pyTokensAux_mem_ne_nil :
    ∀ (l acc : List Char) t, t ∈ pyTokensAux acc l → t ≠ [] := by
  intro l
  induction l with
  | nil =>
    intro acc t ht
    by_cases ha : acc.isEmpty
    · simp [pyTokensAux, ha] at ht
    · simp [pyTokensAux, ha] at ht
      subst ht
      simpa [List.isEmpty_iff] using ha
  | cons c rest ih =>
    intro acc t ht
    by_cases hw : pyIsWs c
    · by_cases ha : acc.isEmpty
      · simp [pyTokensAux, hw, ha] at ht
        exact ih [] t ht
      · simp [pyTokensAux, hw, ha] at ht
        rcases ht with ht | ht
        · subst ht
          simpa [List.isEmpty_iff] using ha
        · exact ih [] t ht
    · simp [pyTokensAux, hw] at ht
      exact ih (c :: acc) t ht

/-- The splitter yields at least one token when a non-whitespace
character is present (or a partial token is pending). -/
theorem pyTokensAux_ne_nil :
    ∀ (l acc : List Char),
      (acc ≠ [] ∨ ∃ c ∈ l, pyIsWs c = false) → pyTokensAux acc l ≠ [] := by
  intro l
  induction l with
  | nil =>
    intro acc h
    rcases h with h | ⟨c, hc, _⟩
    · simp [pyTokensAux, List.isEmpty_iff, h]
    · cases hc
  | cons c rest ih =>
    intro acc h
    by_cases hw : pyIsWs c
    · by_cases ha : acc.isEmpty
      · simp only [pyTokensAux, hw, ha, if_true]
        apply ih
        right
        rcases h with h | ⟨c2, hc2, hnw⟩
        · simp [List.isEmpty_iff] at ha
          exact absurd ha h
        · rcases List.mem_cons.mp hc2 with rfl | hc2
          · rw [hw] at hnw; cases hnw
          · exact ⟨c2, hc2, hnw⟩
      · simp [pyTokensAux, hw, ha]
    · simp only [pyTokensAux, hw, if_false]
      apply ih
      left
      simp

/-- Joining tokens headed by a nonempty token is nonempty. -/
theorem joinWithSpace_ne_nil (t : List Char) (ts : List (List Char))
    (ht : t ≠ []) : joinWithSpace (t :: ts) ≠ [] := by
  cases ts with
  | nil => simpa [joinWithSpace] using ht
  | cons t2 rest =>
    simp only [joinWithSpace, ne_eq, List.append_eq_nil]
    intro hcon
    exact absurd hcon.2 (by simp)

/-- The normalized name of a string holding a non-whitespace character
is nonempty. -/
theorem normWsJoin_ne_empty (s : String)
    (h : ∃ c ∈ s.data, pyIsWs c = false) : normWsJoin s ≠ "" := by
  intro hcon
  have hdata : joinWithSpace (pyTokens s.data) = [] := congrArg String.data hcon
  have hne := pyTokensAux_ne_nil s.data [] (Or.inr h)
  cases hts : pyTokens s.data with
  | nil => exact hne hts
  | cons t ts =>
    have hmem : t ∈ pyTokensAux [] s.data := by rw [← pyTokens]; rw [hts]; simp
    have htne := pyTokensAux_mem_ne_nil s.data [] t hmem
    rw [pyTokens] at hts
    rw [← pyTokens] at hts
    rw [hts] at hdata
    exact joinWithSpace_ne_nil t ts htne hdata

/-- A row whose cleaned Exercise cell is empty is skipped. -/
theorem processRow_none (nowUtc : String) (r : XRow)
    (h : clean_str r.exercise = "") : processRow nowUtc r = none := by
  simp [processRow, h]

/-- A produced output row records the normalized nonempty name. -/
theorem processRow_some_name (nowUtc : String) (r : XRow) (o : OutRow)
    (k : String) (h : processRow nowUtc r = some (o, k)) :
    clean_str r.exercise ≠ "" ∧ o.name = normWsJoin (clean_str r.exercise) := by
  by_cases hc : clean_str r.exercise = ""
  · rw [processRow_none nowUtc r hc] at h
    cases h
  · refine ⟨hc, ?_⟩
    have hb : (clean_str r.exercise == "") = false := by simpa using hc
    simp only [processRow, hb, Bool.false_eq_true, if_false,
      Option.some.injEq, Prod.mk.injEq] at h
    rw [← h.1]

/-- Rows with empty names contribute nothing: pre-filtering them away
leaves both the output rows and the name-count keys unchanged. -/
theorem processRows_filter (nowUtc : String) : ∀ rows : List XRow,
    processRows nowUtc (rows.filter (fun r => clean_str r.exercise != ""))
      = processRows nowUtc rows := by
  intro rows
  induction rows with
  | nil => rfl
  | cons r rest ih =>
    by_cases hc : clean_str r.exercise = ""
    · rw [List.filter_cons_of_neg (by simp [hc])]
      rw [ih]
      simp [processRows, processRow_none nowUtc r hc]
    · rw [List.filter_cons_of_pos (by simp [hc])]
      simp only [processRows, ih]

/-- Every produced output row has a nonempty name. -/
theorem processRows_name_ne (nowUtc : String) : ∀ (rows : List XRow) (o : OutRow),
    o ∈ (processRows nowUtc rows).1 → o.name ≠ "" := by
  intro rows
  induction rows with
  | nil => intro o ho; cases ho
  | cons r rest ih =>
    intro o ho
    simp only [processRows] at ho
    cases hr : processRow nowUtc r with
    | none =>
      rw [hr] at ho
      cases hrest : processRows nowUtc rest with
      | mk outs keys =>
        rw [hrest] at ho
        exact ih o (by rw [hrest]; exact ho)
    | some ok =>
      obtain ⟨o1, k1⟩ := ok
      rw [hr] at ho
      cases hrest : processRows nowUtc rest with
      | mk outs keys =>
        rw [hrest] at ho
        rcases List.mem_cons.mp ho with rfl | ho2
        · obtain ⟨hne, hname⟩ := processRow_some_name nowUtc r o k1 hr
          rw [hname]
          apply normWsJoin_ne_empty
          have hcl : clean_str r.exercise = pyStrip (pyStrOfValue r.exercise) := by
            by_cases hemp : is_empty r.exercise
            · exact absurd (by simp [clean_str, hemp]) hne
            · simp [clean_str, hemp]
          cases hd : (clean_str r.exercise).data with
          | nil =>
            exact absurd (String.ext hd) hne
          | cons c cs =>
            have hd2 : (pyStrip (pyStrOfValue r.exercise)).data = c :: cs := by
              rw [← hcl]; exact hd
            exact ⟨c, by simp [hd], pyStripP_head_false pyIsWs _ c cs hd2⟩
        · exact ih o (by rw [hrest]; exact ho2)

/-- C10: in the spreadsheet variant, every source row whose Exercise
cell is empty, absent or whitespace-only is skipped entirely — removing
such rows first changes neither the output rows nor the name-count
keys — and every output row has a nonempty name. -/
theorem C10_skip_empty_names : ∀ (nowUtc : String) (rows : List XRow),
    processRows nowUtc (rows.filter (fun r => clean_str r.exercise != ""))
      = processRows nowUtc rows
  ∧ ∀ o ∈ (processRows nowUtc rows).1, o.name ≠ "" :=
  fun nowUtc rows =>
    ⟨processRows_filter nowUtc rows, fun o ho => processRows_name_ne nowUtc rows o ho⟩

/-- C10 witness: the theorem applied to a concrete one-row batch,
discharging the membership hypothesis on its first output row. -/
theorem C10_witness :
    ((processRows "t" [{ (default : XRow) with
        exercise := Value.vStr "Squat" }]).1.getD 0 default).name ≠ "" := by
  have hlen : 0 < (processRows "t" [{ (default : XRow) with
      exercise := Value.vStr "Squat" }]).1.length := by decide
  rw [List.getD_eq_getElem _ _ hlen]
  exact (C10_skip_empty_names "t" _).2 _ (List.getElem_mem hlen)

/-- String eta. -/
theorem strEta (s : String) : (⟨s.data⟩ : String) = s := by
  cases s; rfl

/-- Backslash doubling is a no-op on backslash-free text. -/
theorem escBackslashChars_noop (l : List Char) (h : ∀ c ∈ l, c ≠ '\\') :
    escBackslashChars l = l := by
  induction l with
  | nil => rfl
  | cons c m ih =>
    have hc : c ≠ '\\' := h c (by simp)
    simp only [escBackslashChars, List.flatMap_cons] at *
    rw [if_neg (by simpa using hc)]
    simp only [List.singleton_append, List.cons.injEq, true_and]
    exact ih (fun x hx => h x (by simp [hx]))

/-- Quote escaping is a no-op on quote-free text. -/
theorem escQuoteChars_noop (l : List Char) (h : ∀ c ∈ l, c ≠ '"') :
    escQuoteChars l = l := by
  induction l with
  | nil => rfl
  | cons c m ih =>
    have hc : c ≠ '"' := h c (by simp)
    simp only [escQuoteChars, List.flatMap_cons] at *
    rw [if_neg (by simpa using hc)]
    simp only [List.singleton_append, List.cons.injEq, true_and]
    exact ih (fun x hx => h x (by simp [hx]))

/-- Escaping is a no-op on quote- and backslash-free text. -/
theorem escChars_noop (l : List Char) (h : ∀ c ∈ l, c ≠ '"' ∧ c ≠ '\\') :
    escChars l = l := by
  unfold escChars
  rw [escBackslashChars_noop l (fun c hc => (h c hc).2)]
  exact escQuoteChars_noop l (fun c hc => (h c hc).1)

/-- `dropWhile` is a no-op when no element matches. -/
theorem dropWhile_noop (p : Char → Bool) (l : List Char)
    (h : ∀ c ∈ l, p c = false) : l.dropWhile p = l := by
  cases l with
  | nil => rfl
  | cons c m => exact List.dropWhile_cons_of_neg (by simp [h c (by simp)])

/-- Stripping leaves a list alone when both ends fail the predicate. -/
theorem pyStripP_of_ends (p : Char → Bool) (c e : Char) (m : List Char)
    (hc : p c = false) (he : p e = false) :
    pyStripP p (c :: (m ++ [e])) = c :: (m ++ [e]) := by
  simp only [pyStripP, stripLeftP, stripRightP]
  rw [List.dropWhile_cons_of_neg (by simp [hc])]
  have h1 : (c :: (m ++ [e])).reverse = e :: (m.reverse ++ [c]) := by simp
  rw [h1, List.dropWhile_cons_of_neg (by simp [he]), ← h1, List.reverse_reverse]

/-- Middle intercalate step. -/
theorem intercalate_cons_cons (sep a b : List Char) (l : List (List Char)) :
    List.intercalate sep (a :: b :: l) = a ++ sep ++ List.intercalate sep (b :: l) := by
  simp [List.intercalate, List.intersperse]

/-- Singleton intercalate. -/
theorem intercalate_single (sep a : List Char) : List.intercalate sep [a] = a := by
  simp [List.intercalate]

/-- Splitting a separator-free piece yields just that piece. -/
theorem splitOnChar_free (p : List Char) (h : ∀ c ∈ p, c ≠ ',') :
    splitOnChar ',' p = [p] := by
  induction p with
  | nil => rfl
  | cons c m ih =>
    simp only [splitOnChar]
    rw [if_neg (by simpa using h c (by simp))]
    rw [ih (fun x hx => h x (by simp [hx]))]

/-- Splitting after a separator-free prefix peels that prefix off. -/
theorem splitOnChar_append (p t : List Char) (h : ∀ c ∈ p, c ≠ ',') :
    splitOnChar ',' (p ++ ',' :: t) = p :: splitOnChar ',' t := by
  induction p with
  | nil => simp [splitOnChar]
  | cons c m ih =>
    simp only [List.cons_append, splitOnChar]
    rw [if_neg (by simpa using h c (by simp))]
    rw [List.append_eq, ih (fun x hx => h x (by simp [hx]))]

/-- Splitting the comma-joined pieces recovers them (pieces comma-free,
at least one piece). -/
theorem splitOnChar_intercalate (pieces : List (List Char))
    (hne : pieces ≠ [])
    (h : ∀ p ∈ pieces, ∀ c ∈ p, c ≠ ',') :
    splitOnChar ',' (List.intercalate [','] pieces) = pieces := by
  induction pieces with
  | nil => exact absurd rfl hne
  | cons p rest ih =>
    cases rest with
    | nil =>
      rw [intercalate_single]
      exact splitOnChar_free p (h p (by simp))
    | cons p2 ps =>
      rw [intercalate_cons_cons, List.append_assoc, List.singleton_append]
      rw [splitOnChar_append p _ (h p (by simp))]
      rw [ih (by simp) (fun q hq c hc => h q (by simp [hq]) c hc)]

/-- Unfolding of the string scanner at an uninterpreted non-special
head character. -/
theorem scanJString_cons_plain (c : Char) (rest : List Char)
    (h1 : c ≠ '"') (h2 : c ≠ '\\') :
    scanJString (c :: rest) = if c.toNat < 32 then none
      else match scanJString rest with
        | some (cs, r) => some (c :: cs, r)
        | none => none := by
  conv_lhs => rw [scanJString.eq_def]
  dsimp only
  rw [if_neg (by simpa using h1), if_neg (by simpa using h2)]

/-- Scanning a quote/backslash-free string body either fails (control
characters) or consumes exactly the body. -/
theorem scanJString_clean (i : List Char) (rest : List Char)
    (h : ∀ c ∈ i, c ≠ '"' ∧ c ≠ '\\') :
    scanJString (i ++ '"' :: rest) = none
  ∨ ∃ s, scanJString (i ++ '"' :: rest) = some (s, rest) := by
  induction i with
  | nil => exact Or.inr ⟨[], by rw [List.nil_append, scanJString.eq_def]; rfl⟩
  | cons c m ih =>
    have hc := h c (by simp)
    rw [List.cons_append, scanJString_cons_plain c _ hc.1 hc.2]
    by_cases hctl : c.toNat < 32
    · left
      rw [if_pos hctl]
    · rw [if_neg hctl]
      rcases ih (fun x hx => h x (by simp [hx])) with hnone | ⟨s, hs⟩
      · left
        rw [hnone]
      · right
        exact ⟨c :: s, by rw [hs]⟩

/-- An object member scan fails on `"key"` followed by `,` or `}` (the
shape every encoded literal with at least one item has). -/
theorem parseJObjBody_fail (g : Nat) (i tail : List Char) (d : Char)
    (hq : ∀ c ∈ i, c ≠ '"' ∧ c ≠ '\\') (hd : d = ',' ∨ d = '}') :
    parseJObjBody g ('"' :: (i ++ '"' :: d :: tail)) = none := by
  cases g with
  | zero => rfl
  | succ g2 =>
    have hskip : skipJWs (d :: tail) = d :: tail := by
      rcases hd with rfl | rfl <;>
        rw [skipJWs, List.dropWhile_cons_of_neg (by decide)]
    have hcolon : (d == ':') = false := by
      rcases hd with rfl | rfl <;> rfl
    conv_lhs => rw [parseJObjBody.eq_def]
    dsimp only
    rw [if_pos (show ('"' == '"') = true by decide)]
    rcases scanJString_clean i (d :: tail) hq with hnone | ⟨s, hs⟩
    · rw [hnone]
    · rw [hs]
      dsimp only
      rw [hskip]
      dsimp only
      rw [if_neg (by simp [hcolon])]

/-- The object-members scanner fails on the same shape. -/
theorem parseJObjItems_fail (f : Nat) (i tail : List Char) (d : Char)
    (hq : ∀ c ∈ i, c ≠ '"' ∧ c ≠ '\\') (hd : d = ',' ∨ d = '}') :
    parseJObjItems f ('"' :: (i ++ '"' :: d :: tail)) = none := by
  cases f with
  | zero => rfl
  | succ g =>
    have hskip : skipJWs ('"' :: (i ++ '"' :: d :: tail))
        = '"' :: (i ++ '"' :: d :: tail) := by
      rw [skipJWs, List.dropWhile_cons_of_neg (by decide)]
    conv_lhs => rw [parseJObjItems.eq_def]
    dsimp only
    rw [hskip]
    dsimp only
    rw [if_neg (show ¬(('"' == '}') = true) by decide)]
    exact parseJObjBody_fail g i tail d hq hd

/-- The value scanner fails on every encoded nonempty-array literal. -/
theorem parseJVal_obj_fail (fuel : Nat) (i tail : List Char) (d : Char)
    (hq : ∀ c ∈ i, c ≠ '"' ∧ c ≠ '\\') (hd : d = ',' ∨ d = '}') :
    parseJVal fuel ('{' :: ('"' :: (i ++ '"' :: d :: tail))) = none := by
  cases fuel with
  | zero => rfl
  | succ f =>
    simp only [parseJVal]
    rw [if_pos (by decide), parseJObjItems_fail f i tail d hq hd]

/-- `json.loads` fails on every encoded nonempty-array literal whose
items are quote- and backslash-free. -/
theorem json_loads_obj_fail (i tail : List Char) (d : Char)
    (hq : ∀ c ∈ i, c ≠ '"' ∧ c ≠ '\\') (hd : d = ',' ∨ d = '}') :
    json_loads ⟨'{' :: ('"' :: (i ++ '"' :: d :: tail))⟩ = none := by
  simp only [json_loads]
  have hskip : skipJWs ('{' :: ('"' :: (i ++ '"' :: d :: tail)))
      = '{' :: ('"' :: (i ++ '"' :: d :: tail)) := by
    rw [skipJWs, List.dropWhile_cons_of_neg (by decide)]
  rw [hskip, parseJVal_obj_fail _ i tail d hq hd]

/-- The joined quoted pieces start and end with a double quote. -/
theorem intercalate_quoted_shape : ∀ (items : List String), items ≠ [] →
    ∃ mid, List.intercalate [','] (items.map (fun s => '"' :: (s.data ++ ['"'])))
      = '"' :: (mid ++ ['"']) := by
  intro items hne
  induction items with
  | nil => exact absurd rfl hne
  | cons s rest ih =>
    cases rest with
    | nil =>
      exact ⟨s.data, by rw [List.map_cons, List.map_nil, intercalate_single]⟩
    | cons s2 rs =>
      obtain ⟨mid2, hmid⟩ := ih (by simp)
      refine ⟨s.data ++ '"' :: ',' :: '"' :: mid2, ?_⟩
      rw [List.map_cons] at hmid
      rw [List.map_cons, List.map_cons, intercalate_cons_cons, hmid]
      simp

/-- The encoded body followed by the closing brace exposes the
`"item" d …` shape needed for the parse-failure lemma. -/
theorem quoted_intercalate_dshape (s1 : String) (rest : List String) :
    ∃ d tail, (d = ',' ∨ d = '}')
      ∧ List.intercalate [',']
          ((s1 :: rest).map (fun s => '"' :: (s.data ++ ['"']))) ++ ['}']
        = '"' :: (s1.data ++ '"' :: d :: tail) := by
  cases rest with
  | nil =>
    refine ⟨'}', [], Or.inr rfl, ?_⟩
    rw [List.map_cons, List.map_nil, intercalate_single]
    simp
  | cons s2 rs =>
    refine ⟨',', List.intercalate [',']
      ((s2 :: rs).map (fun s => '"' :: (s.data ++ ['"']))) ++ ['}'], Or.inl rfl, ?_⟩
    rw [List.map_cons, List.map_cons, intercalate_cons_cons]
    simp

/-- Stripping whitespace then quotes from an encoded quote-free piece
recovers the piece. -/
theorem strip_quoted_piece (s : List Char) (hq : ∀ c ∈ s, c ≠ '"') :
    pyStripP (fun c => c == '"') (pyStripP pyIsWs ('"' :: (s ++ ['"']))) = s := by
  rw [pyStripP_of_ends pyIsWs '"' '"' s rfl rfl]
  simp only [pyStripP, stripLeftP, stripRightP]
  rw [List.dropWhile_cons_of_pos (by decide)]
  cases s with
  | nil => simp [List.dropWhile]
  | cons c m =>
    rw [List.cons_append, List.dropWhile_cons_of_neg
      (by simpa using hq c (by simp))]
    have h1 : ((c :: m) ++ ['"']).reverse = '"' :: (c :: m).reverse := by simp
    rw [← List.cons_append, h1, List.dropWhile_cons_of_pos (by decide)]
    rw [dropWhile_noop (fun x => x == '"') (c :: m).reverse (fun x hx => by
      have hxm : x ∈ c :: m := List.mem_reverse.mp hx
      simpa using hq x hxm)]
    rw [List.reverse_reverse]

/-- C1 (amended): round-trip of the array codec for every NON-EMPTY
sequence of items free of double quotes, backslashes and commas:
`Decode(Encode(items)) = (items, true)` (via the brace-literal branch of
Decode — the encoded form is not JSON).  The empty sequence is excluded:
`Encode([]) = "{}"` parses as a JSON object, see `C1_counterexample`. -/
theorem C1_roundtrip (items : List String) (hne : items ≠ [])
    (hok : ∀ s ∈ items, ∀ c ∈ s.data, c ≠ '"' ∧ c ≠ '\\' ∧ c ≠ ',') :
    parse_json_array (Value.vStr (pg_array_literal items)) = (items, true) := by
  obtain ⟨s1, rest, rfl⟩ : ∃ s1 rest, items = s1 :: rest := by
    cases items with
    | nil => exact absurd rfl hne
    | cons a b => exact ⟨a, b, rfl⟩
  have hdata : (pg_array_literal (s1 :: rest)).data
      = '{' :: (List.intercalate [',']
          ((s1 :: rest).map (fun s => '"' :: (s.data ++ ['"']))) ++ ['}']) := by
    show pgLitChars _ = _
    rw [pgLitChars, List.map_map]
    have hm : List.map (quotedChars ∘ String.data) (s1 :: rest)
        = List.map (fun s => '"' :: (s.data ++ ['"'])) (s1 :: rest) := by
      apply List.map_congr_left
      intro s hs
      show quotedChars s.data = _
      rw [quotedChars, escChars_noop s.data
        (fun c hc => ⟨(hok s hs c hc).1, (hok s hs c hc).2.1⟩)]
      rfl
    rw [hm]
    rfl
  have hstrip : pyStrip (pg_array_literal (s1 :: rest)) = pg_array_literal (s1 :: rest) := by
    have : pyStripP pyIsWs (pg_array_literal (s1 :: rest)).data
        = (pg_array_literal (s1 :: rest)).data := by
      rw [hdata]
      exact pyStripP_of_ends pyIsWs '{' '}' _ rfl rfl
    unfold pyStrip
    rw [this]
  have hlitne : pg_array_literal (s1 :: rest) ≠ "" := by
    intro h
    have := congrArg String.data h
    rw [hdata] at this
    cases this
  have hbeq : (pg_array_literal (s1 :: rest) == "") = false :=
    beq_eq_false_iff_ne.mpr hlitne
  have hemp : is_empty (Value.vStr (pg_array_literal (s1 :: rest))) = false := by
    simp only [is_empty, hstrip, hbeq]
  obtain ⟨d, tail, hd, hshape⟩ := quoted_intercalate_dshape s1 rest
  have hjson : json_loads (pg_array_literal (s1 :: rest)) = none := by
    have hdata2 : pg_array_literal (s1 :: rest)
        = (⟨'{' :: ('"' :: (s1.data ++ '"' :: d :: tail))⟩ : String) := by
      apply String.ext
      rw [hdata, hshape]
    rw [hdata2]
    exact json_loads_obj_fail s1.data tail d
      (fun c hc => ⟨(hok s1 (by simp) c hc).1, (hok s1 (by simp) c hc).2.1⟩) hd
  obtain ⟨mid, hmid⟩ := intercalate_quoted_shape (s1 :: rest) (by simp)
  have hmiddle : middleChars (pg_array_literal (s1 :: rest)).data
      = List.intercalate [','] ((s1 :: rest).map (fun s => '"' :: (s.data ++ ['"']))) := by
    rw [hdata, middleChars, List.drop_one, List.tail_cons, List.dropLast_concat]
  have hinner : pyStripP pyIsWs (middleChars (pg_array_literal (s1 :: rest)).data)
      = List.intercalate [','] ((s1 :: rest).map (fun s => '"' :: (s.data ++ ['"']))) := by
    rw [hmiddle, hmid]
    exact pyStripP_of_ends pyIsWs '"' '"' _ rfl rfl
  have hhead : headIs '{' (pg_array_literal (s1 :: rest)).data = true := by
    rw [hdata]; rfl
  have hlast : lastIs '}' (pg_array_literal (s1 :: rest)).data = true := by
    rw [hdata]
    simp only [lastIs, List.reverse_cons, List.reverse_append]
    simp [headIs]
  have hinnerne : (⟨pyStripP pyIsWs (middleChars (pg_array_literal (s1 :: rest)).data)⟩ : String) ≠ "" := by
    intro h
    have := congrArg String.data h
    simp only [hinner, hmid] at this
    cases this
  have hsplit : splitOnChar ','
      (List.intercalate [','] ((s1 :: rest).map (fun s => '"' :: (s.data ++ ['"']))))
      = (s1 :: rest).map (fun s => '"' :: (s.data ++ ['"'])) := by
    apply splitOnChar_intercalate _ (by simp)
    intro p hp c hc
    obtain ⟨s, hs, rfl⟩ := List.mem_map.mp hp
    rcases List.mem_cons.mp hc with rfl | hc2
    · decide
    · rcases List.mem_append.mp hc2 with hc3 | hc3
      · exact (hok s hs c hc3).2.2
      · rcases List.mem_singleton.mp hc3 with rfl
        decide
  -- now reduce the decoder
  simp only [parse_json_array, hemp, Bool.false_eq_true, if_false]
  simp only [pyStrOfValue, hstrip, hbeq, hjson, hhead, hlast, Bool.and_self, if_true]
  rw [if_neg (by simp [hbeq])]
  rw [if_neg (by simpa using hinnerne)]
  simp only [hinner, hsplit, List.map_map]
  refine Prod.ext ?_ rfl
  show ((s1 :: rest).map _) = s1 :: rest
  rw [List.map_congr_left (fun s hs => ?_), List.map_id]
  show (⟨pyStripP (fun c => c == '"')
    (pyStripP pyIsWs ('"' :: (s.data ++ ['"'])))⟩ : String) = s
  rw [strip_quoted_piece s.data (fun c hc => (hok s hs c hc).1)]

/-- C1 witness: the round-trip theorem applied at the concrete batch
`["A", "B"]`, with both hypotheses discharged. -/
theorem C1_roundtrip_witness :
    parse_json_array (Value.vStr (pg_array_literal ["A", "B"]))
      = (["A", "B"], true) :=
  C1_roundtrip ["A", "B"] (by decide)
    (by intro s hs c hc; fin_cases hs <;> fin_cases hc <;> exact ⟨by decide, by decide, by decide⟩)

/-- C1 counterexample: the claim includes the empty sequence, but
`Encode([]) = "{}"` is valid JSON (an object), so the decode flag is
`false` and the item list holds the raw text — not `([], true)`. -/
theorem C1_counterexample :
    parse_json_array (Value.vStr (pg_array_literal []))
        = (["\x7b\x7d"], false)
  ∧ ¬ parse_json_array (Value.vStr (pg_array_literal []))
        = (([] : List String), true) := by
  decide

end FitnessApp
